import Mathlib

/-!
Shallow embedding of `runtime/near-vm-logic/src/receipt_manager.rs`:
the receipt-construction core of the NEAR contract runtime.  Machine
integers (`u64`, `u128`) are modelled as `Nat`; the one place where the
source performs wrapping machine arithmetic whose overflow is not ruled
out by the surrounding code (the `*gas += assigned_gas` update of a
function-call action's gas field) is modelled with an explicit
`% 2 ^ 64`.  Fallible operations return `Except`; the `panic!`/`expect`
branches of the source are modelled as `Option.none`.
-/

namespace ReceiptModel

/-- Value `u64::MAX + 1`, the modulus of the `Gas`/`u64` type. -/
def U64 : Nat := 2 ^ 64

/-- Type `AccountId` (near_primitives_core) modelled as a plain string. -/
abbrev AccountId := String

/-- Type `CryptoHash`: data identifiers are opaque unique values; they are
modelled as the natural-number counter values produced by the external
data-id generator (spec section 6: unique within one execution context). -/
abbrev DataId := Nat

/-- Type `DataReceiver` (near_primitives): where to route a receipt's output. -/
structure DataReceiver where
  data_id : DataId
  receiver_id : AccountId
deriving DecidableEq

/-- Modelled from the spec: `near_crypto::PublicKey` is an external
protocol type; a recognized key encoding is one of the two curve kinds. -/
inductive PublicKey where
  | ed25519 (key_data : List Nat)
  | secp256k1 (key_data : List Nat)
deriving DecidableEq

/-- Payload of `AccessKeyPermission::FunctionCall` (near_primitives_core).
Method names are kept as their (validated) byte sequences. -/
structure FunctionCallPermission where
  allowance : Option Nat
  receiver_id : AccountId
  method_names : List (List Nat)
deriving DecidableEq

/-- Type `AccessKeyPermission` (near_primitives_core). -/
inductive AccessKeyPermission where
  | functionCall (p : FunctionCallPermission)
  | fullAccess
deriving DecidableEq

/-- Type `AccessKey` (near_primitives_core). -/
structure AccessKey where
  nonce : Nat
  permission : AccessKeyPermission
deriving DecidableEq

/-- The closed action-kind set (`near_primitives::transaction::Action`),
one case per operation a receipt may carry.  Byte payloads (code,
arguments, method names) are byte lists; a function-call action's
`method_name` is the validated byte sequence of its string. -/
inductive Action where
  | createAccount
  | deployContract (code : List Nat)
  | functionCall (method_name : List Nat) (args : List Nat) (gas : Nat) (deposit : Nat)
  | transfer (deposit : Nat)
  | stake (stake : Nat) (public_key : PublicKey)
  | addKey (public_key : PublicKey) (access_key : AccessKey)
  | deleteKey (public_key : PublicKey)
  | deleteAccount (beneficiary_id : AccountId)
deriving DecidableEq

/-- Type `ReceiptMetadata`: one record per pending receipt. -/
structure ReceiptMetadata where
  output_data_receivers : List DataReceiver
  input_data_ids : List DataId
  actions : List Action
deriving DecidableEq

/-- Type `ActionReceipts`: the ordered pending-receipt store of
(receiver account, metadata) pairs, addressed by dense indices. -/
abbrev Store := List (AccountId × ReceiptMetadata)

/-- Position of a function-call action: receipt index plus the action's
position within that receipt (`FunctionCallActionIndex` in the source). -/
structure FunctionCallActionIndex where
  receipt_index : Nat
  action_index : Nat
deriving DecidableEq

/-- Type `ReceiptManager`: the pending store plus the gas-weight registry
(`gas_weights : Vec<(FunctionCallActionIndex, GasWeight)>`). -/
structure ReceiptManager where
  action_receipts : Store
  gas_weights : List (FunctionCallActionIndex × Nat)
deriving DecidableEq

/-- Type `GasDistribution` (near_primitives_core): outcome of a distribution. -/
inductive GasDistribution where
  | All
  | NoRatios
deriving DecidableEq

/-- The `HostError` values surfaced by this component. -/
inductive HostError where
  | invalidReceiptIndex (receipt_index : Nat)
  | invalidMethodName
  | invalidPublicKey
deriving DecidableEq

/-- Type `ActionReceipt` (near_primitives::receipt): finalized receipt body. -/
structure ActionReceipt where
  signer_id : AccountId
  signer_public_key : PublicKey
  gas_price : Nat
  output_data_receivers : List DataReceiver
  input_data_ids : List DataId
  actions : List Action
deriving DecidableEq

/-- Type `ReceiptEnum`: the variant constructed by this component. -/
inductive ReceiptEnum where
  | action (r : ActionReceipt)
deriving DecidableEq

/-- Type `Receipt` (near_primitives::receipt).  Field `receipt_id` is left at
`CryptoHash::default()`, modelled as `0`. -/
structure Receipt where
  predecessor_id : AccountId
  receiver_id : AccountId
  receipt_id : Nat
  receipt : ReceiptEnum
deriving DecidableEq

/-! ## Gas-weight distribution (`distribute_unused_gas` and helpers) -/

/-- The `u128` sum of all recorded weights
(`self.gas_weights.iter().map(|(_, GasWeight(weight))| *weight as u128).sum()`). -/
def gasWeightSum (gw : List (FunctionCallActionIndex × Nat)) : Nat :=
  (gw.map (fun e => e.2)).sum

/-- The action stored at a (receipt index, action position) pair, if any:
`get_mut(receipt_index).and_then(|(_, receipt)| receipt.actions.get_mut(action_index))`. -/
def actionAt (s : Store) (fci : FunctionCallActionIndex) : Option Action :=
  match s[fci.receipt_index]? with
  | none => none
  | some p => p.2.actions[fci.action_index]?

/-- Whether a registry entry resolves to a function-call action, i.e.
whether the `if let Some(Action::FunctionCall(..))` arm of the source's
`distribute_gas` closure is taken rather than its `panic!` arm. -/
def resolvesToFunctionCall (s : Store) (fci : FunctionCallActionIndex) : Bool :=
  match actionAt s fci with
  | some (.functionCall _ _ _ _) => true
  | _ => false

/-- The `distribute_gas` closure of the source: add `assigned` to the gas
field of the function-call action at `fci` (wrapping `u64` addition);
`none` models the `panic!` arm (fatal internal-invariant breach). -/
def distribute_gas (s : Store) (fci : FunctionCallActionIndex) (assigned : Nat) :
    Option Store :=
  match s[fci.receipt_index]? with
  | none => none
  | some (account_id, meta) =>
    match meta.actions[fci.action_index]? with
    | some (.functionCall method_name args gas deposit) =>
      some (s.set fci.receipt_index
        (account_id,
         { meta with
           actions := meta.actions.set fci.action_index
             (.functionCall method_name args ((gas + assigned) % U64) deposit) }))
    | _ => none

/-- The `for (action_index, GasWeight(weight)) in &self.gas_weights` loop:
assign `gas_per_weight * weight` to each recorded entry in recording
order, accumulating the running `distributed` total. -/
def distributeLoop (s : Store) (gw : List (FunctionCallActionIndex × Nat))
    (gas_per_weight : Nat) : Option (Store × Nat) :=
  match gw with
  | [] => some (s, 0)
  | (fci, weight) :: rest =>
    match distribute_gas s fci (gas_per_weight * weight) with
    | none => none
    | some s' =>
      match distributeLoop s' rest gas_per_weight with
      | none => none
      | some (s'', distributed) => some (s'', gas_per_weight * weight + distributed)

/-- Function `ReceiptManager::distribute_unused_gas`: split `gas` among the
recorded weights (floor division), give the remainder to the last
recorded entry, clear the registry and return `All`; with a zero weight
sum return `NoRatios` untouched.  `none` models the `panic!` arm. -/
def distribute_unused_gas (m : ReceiptManager) (gas : Nat) :
    Option (ReceiptManager × GasDistribution) :=
  let gas_weight_sum := gasWeightSum m.gas_weights
  if gas_weight_sum ≠ 0 then
    let gas_per_weight := gas / gas_weight_sum
    match distributeLoop m.action_receipts m.gas_weights gas_per_weight with
    | none => none
    | some (s1, distributed) =>
      match m.gas_weights.getLast? with
      | none => some ({ action_receipts := s1, gas_weights := [] }, .All)
      | some (last_idx, _) =>
        match distribute_gas s1 last_idx (gas - distributed) with
        | none => none
        | some s2 => some ({ action_receipts := s2, gas_weights := [] }, .All)
  else
    some (m, .NoRatios)

/-! ## Finalization (`ActionReceipts::take_receipts`) -/

/-- Function `ActionReceipts::take_receipts`: drain the pending store into
outgoing receipt records, in creation order, all sharing the given
predecessor/signer/signer-key/gas-price context.  Returns the records
together with the drained (empty) store, modelling the `&mut self`. -/
def take_receipts (s : Store) (predecessor_id : AccountId) (signer_id : AccountId)
    (signer_public_key : PublicKey) (gas_price : Nat) : List Receipt × Store :=
  (s.map (fun p =>
    { predecessor_id := predecessor_id
      receiver_id := p.1
      receipt_id := 0
      receipt := .action
        { signer_id := signer_id
          signer_public_key := signer_public_key
          gas_price := gas_price
          output_data_receivers := p.2.output_data_receivers
          input_data_ids := p.2.input_data_ids
          actions := p.2.actions } }),
   [])

/-! ## Receipt creation (`ReceiptManager::create_receipt`) -/

/-- Modelled from the spec: the external `generate_data_id` collaborator
(spec section 6) returns a value unique within the execution context; it
is modelled as an increasing counter whose current value is the next
identifier.  `create_receipt`'s dependency loop threads this counter. -/
def generate_data_id (ext : Nat) : DataId × Nat := (ext, ext + 1)

/-- The `for receipt_index in receipt_indices` loop of `create_receipt`:
for each dependency index mint a data id, append a `DataReceiver` to that
dependency's `output_data_receivers` and collect the id into
`input_data_ids`; the first out-of-range index aborts with
`InvalidReceiptIndex`, keeping the mutations already applied. -/
def createLoop (ext : Nat) (receiver_id : AccountId) (receipt_indices : List Nat)
    (s : Store) : Except HostError (List DataId) × Store × Nat :=
  match receipt_indices with
  | [] => (.ok [], s, ext)
  | receipt_index :: rest =>
    let (data_id, ext') := generate_data_id ext
    match s[receipt_index]? with
    | none => (.error (.invalidReceiptIndex receipt_index), s, ext')
    | some (account_id, meta) =>
      let s' := s.set receipt_index
        (account_id,
         { meta with
           output_data_receivers := meta.output_data_receivers ++
             [{ data_id := data_id, receiver_id := receiver_id }] })
      match createLoop ext' receiver_id rest s' with
      | (.ok ids, s'', ext'') => (.ok (data_id :: ids), s'', ext'')
      | (.error e, s'', ext'') => (.error e, s'', ext'')

/-- Function `ReceiptManager::create_receipt`: link the new receipt to its
dependencies, then append a fresh (receiver, empty metadata with the
collected `input_data_ids`) entry; the returned index is the store's
length before the append.  The store and data-id counter are threaded
explicitly (an error keeps the mutations the loop already applied,
matching the source's early `?` return). -/
def create_receipt (ext : Nat) (receipt_indices : List Nat) (receiver_id : AccountId)
    (s : Store) : Except HostError Nat × Store × Nat :=
  match createLoop ext receiver_id receipt_indices s with
  | (.ok input_data_ids, s', ext') =>
    let new_receipt : ReceiptMetadata :=
      { output_data_receivers := [], input_data_ids := input_data_ids, actions := [] }
    (.ok s'.length, s' ++ [(receiver_id, new_receipt)], ext')
  | (.error e, s', ext') => (.error e, s', ext')

/-- Function `ReceiptManager::get_receipt_receiver`: pure lookup of the receiver
account recorded at a receipt index. -/
def get_receipt_receiver (s : Store) (receipt_index : Nat) : Option AccountId :=
  (s[receipt_index]?).map (fun p => p.1)

/-! ## Action-append surface -/

/-- Function `ReceiptManager::append_action`: push the action onto the indexed
receipt's action list and return the position it was inserted at.
`none` models the `expect("receipt index should be present")` panic:
an out-of-range index here is a fatal invariant breach, not an error value. -/
def append_action (s : Store) (receipt_index : Nat) (action : Action) :
    Option (Nat × Store) :=
  match s[receipt_index]? with
  | none => none
  | some (account_id, meta) =>
    let actions' := meta.actions ++ [action]
    some (actions'.length - 1,
          s.set receipt_index (account_id, { meta with actions := actions' }))

/-- Whether a byte is a UTF-8 continuation byte (`0b10xxxxxx`). -/
def utf8Cont (b : Nat) : Bool := 0x80 ≤ b && b ≤ 0xBF

/-- Modelled from the spec: `String::from_utf8` (Rust standard library,
external to this repository) succeeds exactly on well-formed UTF-8 per
RFC 3629; this is the standard table of admissible sequences, surrogates
and values above U+10FFFF excluded. -/
def isValidUtf8 : List Nat → Bool
  | [] => true
  | b :: rest =>
    if b ≤ 0x7F then isValidUtf8 rest
    else if 0xC2 ≤ b && b ≤ 0xDF then
      match rest with
      | c1 :: rest2 => utf8Cont c1 && isValidUtf8 rest2
      | [] => false
    else if b = 0xE0 then
      match rest with
      | c1 :: c2 :: rest3 =>
        (0xA0 ≤ c1 && c1 ≤ 0xBF) && utf8Cont c2 && isValidUtf8 rest3
      | _ => false
    else if (0xE1 ≤ b && b ≤ 0xEC) || (0xEE ≤ b && b ≤ 0xEF) then
      match rest with
      | c1 :: c2 :: rest3 => utf8Cont c1 && utf8Cont c2 && isValidUtf8 rest3
      | _ => false
    else if b = 0xED then
      match rest with
      | c1 :: c2 :: rest3 =>
        (0x80 ≤ c1 && c1 ≤ 0x9F) && utf8Cont c2 && isValidUtf8 rest3
      | _ => false
    else if b = 0xF0 then
      match rest with
      | c1 :: c2 :: c3 :: rest4 =>
        (0x90 ≤ c1 && c1 ≤ 0xBF) && utf8Cont c2 && utf8Cont c3 && isValidUtf8 rest4
      | _ => false
    else if 0xF1 ≤ b && b ≤ 0xF3 then
      match rest with
      | c1 :: c2 :: c3 :: rest4 =>
        utf8Cont c1 && utf8Cont c2 && utf8Cont c3 && isValidUtf8 rest4
      | _ => false
    else if b = 0xF4 then
      match rest with
      | c1 :: c2 :: c3 :: rest4 =>
        (0x80 ≤ c1 && c1 ≤ 0x8F) && utf8Cont c2 && utf8Cont c3 && isValidUtf8 rest4
      | _ => false
    else false

/-- Modelled from the spec: `PublicKey::try_from_slice` (near_crypto,
external to this repository) deserializes a recognized key encoding: a
key-type tag byte (`0` = ED25519, `1` = SECP256K1) followed by exactly
the curve's key data (32 resp. 64 bytes). -/
def parsePublicKey (bytes : List Nat) : Option PublicKey :=
  match bytes with
  | 0 :: rest => if rest.length = 32 then some (.ed25519 rest) else none
  | 1 :: rest => if rest.length = 64 then some (.secp256k1 rest) else none
  | _ => none

/-- The `method_names.into_iter().map(..).collect::<Result<Vec<_>,_>>()`
validation of `append_action_add_key_with_function_call`: every method
name must be valid text, the first invalid one aborts with
`InvalidMethodName`. -/
def validateMethodNames : List (List Nat) → Except HostError (List (List Nat))
  | [] => .ok []
  | n :: rest =>
    if isValidUtf8 n then
      match validateMethodNames rest with
      | .ok ns => .ok (n :: ns)
      | .error e => .error e
    else .error .invalidMethodName

/-- Function `ReceiptManager::append_action_function_call`: validate the method
name bytes (before any append), then attach the function-call action.
The (possibly unchanged) store is returned alongside the result; the
outer `none` models the out-of-range panic of `append_action`. -/
def append_action_function_call (s : Store) (receipt_index : Nat)
    (method_name : List Nat) (args : List Nat) (attached_deposit : Nat)
    (prepaid_gas : Nat) : Option (Except HostError Unit × Store) :=
  if isValidUtf8 method_name then
    match append_action s receipt_index
        (.functionCall method_name args prepaid_gas attached_deposit) with
    | none => none
    | some (_, s') => some (.ok (), s')
  else some (.error .invalidMethodName, s)

/-- Function `ReceiptManager::append_action_function_call_weight`: as
`append_action_function_call`, and when the weight is non-zero record
(receipt index, action position, weight) in the gas-weight registry. -/
def append_action_function_call_weight (m : ReceiptManager) (receipt_index : Nat)
    (method_name : List Nat) (args : List Nat) (attached_deposit : Nat)
    (prepaid_gas : Nat) (gas_weight : Nat) :
    Option (Except HostError Unit × ReceiptManager) :=
  if isValidUtf8 method_name then
    match append_action m.action_receipts receipt_index
        (.functionCall method_name args prepaid_gas attached_deposit) with
    | none => none
    | some (action_index, s') =>
      let gw' :=
        if 0 < gas_weight then
          m.gas_weights ++
            [({ receipt_index := receipt_index, action_index := action_index }, gas_weight)]
        else m.gas_weights
      some (.ok (), { action_receipts := s', gas_weights := gw' })
  else some (.error .invalidMethodName, m)

/-- Function `ReceiptManager::append_action_add_key_with_function_call`: parse the
public key, validate every method name (field order of the source: the
key is deserialized first), then attach the add-key action scoped to
function calls. -/
def append_action_add_key_with_function_call (s : Store) (receipt_index : Nat)
    (public_key : List Nat) (nonce : Nat) (allowance : Option Nat)
    (receiver_id : AccountId) (method_names : List (List Nat)) :
    Option (Except HostError Unit × Store) :=
  match parsePublicKey public_key with
  | none => some (.error .invalidPublicKey, s)
  | some pk =>
    match validateMethodNames method_names with
    | .error e => some (.error e, s)
    | .ok names =>
      match append_action s receipt_index
          (.addKey pk
            { nonce := nonce
              permission := .functionCall
                { allowance := allowance, receiver_id := receiver_id,
                  method_names := names } }) with
      | none => none
      | some (_, s') => some (.ok (), s')

/-! ## Helper lemmas -/

theorem gasWeightSum_nil : gasWeightSum [] = 0 := rfl

theorem gasWeightSum_cons (e : FunctionCallActionIndex × Nat)
    (l : List (FunctionCallActionIndex × Nat)) :
    gasWeightSum (e :: l) = e.2 + gasWeightSum l := by
  simp [gasWeightSum]

theorem resolves_iff (s : Store) (fci : FunctionCallActionIndex) :
    resolvesToFunctionCall s fci = true ↔
      ∃ mn args g d, actionAt s fci = some (.functionCall mn args g d) := by
  unfold resolvesToFunctionCall
  cases h : actionAt s fci with
  | none => simp
  | some a => cases a <;> simp

theorem distribute_unused_gas_zero_sum (m : ReceiptManager) (gas : Nat)
    (h : gasWeightSum m.gas_weights = 0) :
    distribute_unused_gas m gas = some (m, .NoRatios) := by
  unfold distribute_unused_gas
  simp [h]

theorem distribute_gas_spec (s : Store) (fci : FunctionCallActionIndex) (n : Nat)
    {s' : Store} (h : distribute_gas s fci n = some s') :
    (∃ mn args g d, actionAt s fci = some (.functionCall mn args g d)
        ∧ actionAt s' fci = some (.functionCall mn args ((g + n) % U64) d))
    ∧ (∀ fci', fci' ≠ fci → actionAt s' fci' = actionAt s fci') := by
  cases h1 : s[fci.receipt_index]? with
  | none => simp only [distribute_gas, h1] at h; exact Option.noConfusion h
  | some p =>
    obtain ⟨acct, meta⟩ := p
    cases h2 : meta.actions[fci.action_index]? with
    | none => simp only [distribute_gas, h1, h2] at h; exact Option.noConfusion h
    | some a =>
      cases a with
      | functionCall mn args g d =>
        simp only [distribute_gas, h1, h2, Option.some.injEq] at h
        have hri : fci.receipt_index < s.length := (List.getElem?_eq_some.mp h1).1
        have hai : fci.action_index < meta.actions.length := (List.getElem?_eq_some.mp h2).1
        constructor
        · refine ⟨mn, args, g, d, ?_, ?_⟩
          · unfold actionAt; rw [h1]; exact h2
          · unfold actionAt
            rw [← h, List.getElem?_set_self (by simpa using hri)]
            simp only
            rw [List.getElem?_set_self (by simpa using hai)]
        · intro fci' hne
          by_cases hr : fci'.receipt_index = fci.receipt_index
          · have ha : fci'.action_index ≠ fci.action_index := by
              intro hae
              exact hne (by cases fci'; cases fci; simp_all)
            unfold actionAt
            rw [← h, hr, List.getElem?_set_self (by simpa using hri), h1]
            simp only
            rw [List.getElem?_set_ne (fun he => ha he.symm)]
          · unfold actionAt
            rw [← h, List.getElem?_set_ne (fun he => hr he.symm)]
      | createAccount => simp only [distribute_gas, h1, h2] at h; exact Option.noConfusion h
      | deployContract c => simp only [distribute_gas, h1, h2] at h; exact Option.noConfusion h
      | transfer dep => simp only [distribute_gas, h1, h2] at h; exact Option.noConfusion h
      | stake st pk => simp only [distribute_gas, h1, h2] at h; exact Option.noConfusion h
      | addKey pk ak => simp only [distribute_gas, h1, h2] at h; exact Option.noConfusion h
      | deleteKey pk => simp only [distribute_gas, h1, h2] at h; exact Option.noConfusion h
      | deleteAccount b => simp only [distribute_gas, h1, h2] at h; exact Option.noConfusion h

theorem distribute_unused_gas_all_clears (m : ReceiptManager) (g : Nat)
    {m' : ReceiptManager}
    (h : distribute_unused_gas m g = some (m', .All)) : m'.gas_weights = [] := by
  unfold distribute_unused_gas at h
  dsimp only at h
  split at h
  · split at h
    · exact Option.noConfusion h
    · split at h
      · simp only [Option.some.injEq, Prod.mk.injEq] at h
        rw [← h.1]
      · split at h
        · exact Option.noConfusion h
        · simp only [Option.some.injEq, Prod.mk.injEq] at h
          rw [← h.1]
  · simp only [Option.some.injEq, Prod.mk.injEq] at h
    exact absurd h.2 (by simp)

/-! ## Claim theorems -/

/-- C5: for every gas amount, `distribute_unused_gas` on a manager whose
gas-weight registry is empty (weight sum zero) returns `NoRatios` and
leaves the manager — every action's gas field included — unchanged. -/
theorem distribute_unused_gas_empty_registry (s : Store) (gas : Nat) :
    distribute_unused_gas { action_receipts := s, gas_weights := [] } gas
      = some ({ action_receipts := s, gas_weights := [] }, .NoRatios) :=
  distribute_unused_gas_zero_sum _ _ rfl

/-- C9: with a receipt index strictly below the store length,
`append_action` never reaches its fatal branch: it appends the action to
that receipt's action list and returns the list's length before the
append; with an out-of-range index it hits the fatal branch (`none`,
the `expect` panic), not a recoverable error value. -/
theorem append_action_in_range (s : Store) (i : Nat) (a : Action) :
    (i < s.length →
      ∃ account_id meta,
        s[i]? = some (account_id, meta) ∧
        append_action s i a =
          some (meta.actions.length,
            s.set i (account_id, { meta with actions := meta.actions ++ [a] })))
    ∧ (s.length ≤ i → append_action s i a = none) := by
  constructor
  · intro h
    have hp : s[i]? = some s[i] := List.getElem?_eq_getElem h
    refine ⟨s[i].1, s[i].2, by rw [hp], ?_⟩
    simp only [append_action, hp]
    simp
  · intro h
    have hp : s[i]? = none := List.getElem?_eq_none h
    simp only [append_action, hp]

/-- C9 witness: appending a transfer action to receipt 0 of a one-entry
store returns position 0 and stores the action; index 1 is fatal. -/
theorem append_action_in_range_witness :
    append_action [("a", { output_data_receivers := [], input_data_ids := [],
                           actions := [] })] 0 (.transfer 5)
      = some (0, [("a", { output_data_receivers := [], input_data_ids := [],
                          actions := [.transfer 5] })])
    ∧ append_action [("a", { output_data_receivers := [], input_data_ids := [],
                             actions := [] })] 1 (.transfer 5) = none := by
  constructor
  · obtain ⟨account_id, meta, h1, h2⟩ :=
      (append_action_in_range
        [("a", { output_data_receivers := [], input_data_ids := [], actions := [] })]
        0 (.transfer 5)).1 (by decide)
    have ha : account_id = "a" ∧
        meta = ({ output_data_receivers := [], input_data_ids := [], actions := [] }
          : ReceiptMetadata) := by
      simpa [Prod.ext_iff] using h1.symm
    rw [ha.1, ha.2] at h2
    exact h2
  · exact (append_action_in_range
      [("a", { output_data_receivers := [], input_data_ids := [], actions := [] })]
      1 (.transfer 5)).2 (by decide)

/-- C1 counterexample: in Scenario B (weights 1 then 2, gas 100) the code
gives the second (last-recorded) action 33·2 + 1 = 67 gas, not the 34 the
claim states; 33 + 67 = 100 is disbursed, outcome `All`. -/
theorem scenarioB_second_action_gains_67 :
    distribute_unused_gas
      { action_receipts :=
          [("a", { output_data_receivers := [], input_data_ids := [],
                   actions := [.functionCall [] [] 0 0, .functionCall [] [] 0 0] })],
        gas_weights := [({ receipt_index := 0, action_index := 0 }, 1),
                        ({ receipt_index := 0, action_index := 1 }, 2)] } 100
    = some
      ({ action_receipts :=
           [("a", { output_data_receivers := [], input_data_ids := [],
                    actions := [.functionCall [] [] 33 0, .functionCall [] [] 67 0] })],
         gas_weights := [] }, .All)
    ∧ (67 : Nat) ≠ 34 := by
  exact ⟨by decide, by decide⟩

/-- C1 amended: Scenario B with weights 1 and 2 and gas 100: weight sum 3,
per-weight-unit 33, the first action gains 33·1 = 33, the second
(last-recorded) gains 33·2 = 66 plus the remainder 1, i.e. 67; the total
added is exactly 100 and the outcome is `All`. -/
theorem scenarioB_distribution :
    gasWeightSum [({ receipt_index := 0, action_index := 0 }, 1),
                  ({ receipt_index := 0, action_index := 1 }, 2)] = 3
    ∧ (100 : Nat) / 3 = 33
    ∧ distribute_unused_gas
        { action_receipts :=
            [("a", { output_data_receivers := [], input_data_ids := [],
                     actions := [.functionCall [] [] 0 0, .functionCall [] [] 0 0] })],
          gas_weights := [({ receipt_index := 0, action_index := 0 }, 1),
                          ({ receipt_index := 0, action_index := 1 }, 2)] } 100
      = some
        ({ action_receipts :=
             [("a", { output_data_receivers := [], input_data_ids := [],
                      actions := [.functionCall [] [] 33 0, .functionCall [] [] 67 0] })],
           gas_weights := [] }, .All)
    ∧ 33 * 1 = 33 ∧ 33 * 2 + (100 - (33 * 3)) = 67 ∧ 33 + 67 = 100 := by
  refine ⟨by decide, by decide, by decide, by decide, by decide, by decide⟩

/-- C10: once `distribute_unused_gas` has returned `All`, the registry is
cleared, so a second call with any gas amount returns `NoRatios` and
leaves the manager (every action's gas field included) unchanged. -/
theorem distribute_unused_gas_second_call (m m' : ReceiptManager) (g : Nat)
    (h : distribute_unused_gas m g = some (m', .All)) (g2 : Nat) :
    distribute_unused_gas m' g2 = some (m', .NoRatios) :=
  distribute_unused_gas_zero_sum m' g2
    (by rw [distribute_unused_gas_all_clears m g h]; rfl)

/-- C10 witness: one weighted action, first call distributes all 10 gas
and returns `All`; a second call with gas 5 returns `NoRatios` unchanged. -/
theorem distribute_unused_gas_second_call_witness :
    distribute_unused_gas
      { action_receipts :=
          [("a", { output_data_receivers := [], input_data_ids := [],
                   actions := [.functionCall [] [] 10 0] })],
        gas_weights := [] } 5
    = some
      ({ action_receipts :=
           [("a", { output_data_receivers := [], input_data_ids := [],
                    actions := [.functionCall [] [] 10 0] })],
         gas_weights := [] }, .NoRatios) :=
  distribute_unused_gas_second_call
    { action_receipts :=
        [("a", { output_data_receivers := [], input_data_ids := [],
                 actions := [.functionCall [] [] 0 0] })],
      gas_weights := [({ receipt_index := 0, action_index := 0 }, 1)] }
    _ 10 (by decide) 5

/-- C7: `take_receipts` drains the store: it returns one outgoing record
per pending receipt, in creation order, each carrying the entry's
receiver, actions, input data ids and output data receivers verbatim and
the shared predecessor/signer/signer-key/gas-price context; the store is
empty afterwards. -/
theorem take_receipts_spec (s : Store) (pred sig : AccountId) (key : PublicKey)
    (price : Nat) :
    (take_receipts s pred sig key price).2 = []
    ∧ (take_receipts s pred sig key price).1.length = s.length
    ∧ ∀ i, i < s.length →
        ∃ recv meta, s[i]? = some (recv, meta) ∧
          (take_receipts s pred sig key price).1[i]? = some
            { predecessor_id := pred, receiver_id := recv, receipt_id := 0,
              receipt := .action
                { signer_id := sig, signer_public_key := key, gas_price := price,
                  output_data_receivers := meta.output_data_receivers,
                  input_data_ids := meta.input_data_ids,
                  actions := meta.actions } } := by
  refine ⟨rfl, by simp [take_receipts], ?_⟩
  intro i hi
  refine ⟨s[i].1, s[i].2, List.getElem?_eq_getElem hi, ?_⟩
  simp [take_receipts, List.getElem?_map, List.getElem?_eq_getElem hi]

/-- C7 witness: finalizing a one-receipt store yields exactly its record. -/
theorem take_receipts_spec_witness :
    (take_receipts [("b", { output_data_receivers := [], input_data_ids := [2],
                            actions := [.transfer 3] })]
        "p" "s" (.ed25519 []) 7).1[0]? = some
      { predecessor_id := "p", receiver_id := "b", receipt_id := 0,
        receipt := .action
          { signer_id := "s", signer_public_key := .ed25519 [], gas_price := 7,
            output_data_receivers := [], input_data_ids := [2],
            actions := [.transfer 3] } } := by
  obtain ⟨recv, meta, h1, h2⟩ :=
    (take_receipts_spec [("b", { output_data_receivers := [], input_data_ids := [2],
                                 actions := [.transfer 3] })]
      "p" "s" (.ed25519 []) 7).2.2 0 (by decide)
  have ha : recv = "b" ∧
      meta = ({ output_data_receivers := [], input_data_ids := [2],
                actions := [.transfer 3] } : ReceiptMetadata) := by
    simpa [Prod.ext_iff] using h1.symm
  rw [ha.1, ha.2] at h2
  exact h2

/-! ## Receipt-creation lemmas -/

/-- The first dependency index that is out of range for a store of the
given length, scanning in input order. -/
def firstOutOfRange (len : Nat) (indices : List Nat) : Option Nat :=
  indices.find? (fun i => decide (len ≤ i))

/-- The data receivers `create_receipt` appends to the entry at index `j`:
one per occurrence of `j` in the dependency list, carrying the data id
minted at that iteration (the counter value) and the new receipt's
receiver account. -/
def mintedReceiversFor (ext : Nat) (recv : AccountId) (indices : List Nat) (j : Nat) :
    List DataReceiver :=
  match indices with
  | [] => []
  | i :: rest =>
    if i = j then
      { data_id := ext, receiver_id := recv } :: mintedReceiversFor (ext + 1) recv rest j
    else mintedReceiversFor (ext + 1) recv rest j

theorem createLoop_ok (recv : AccountId) (indices : List Nat) :
    ∀ (ext : Nat) (s : Store), (∀ i ∈ indices, i < s.length) →
    ∃ s', createLoop ext recv indices s
        = (.ok (List.range' ext indices.length), s', ext + indices.length)
      ∧ s'.length = s.length
      ∧ ∀ (j : Nat) (acct : AccountId) (meta : ReceiptMetadata),
          s[j]? = some (acct, meta) →
          s'[j]? = some (acct,
            { meta with output_data_receivers :=
                meta.output_data_receivers ++ mintedReceiversFor ext recv indices j }) := by
  induction indices with
  | nil =>
    intro ext s _
    exact ⟨s, rfl, rfl, fun j acct meta h => by simpa [mintedReceiversFor] using h⟩
  | cons i rest ih =>
    intro ext s h
    have hi : i < s.length := h i (List.mem_cons_self i rest)
    obtain ⟨acct0, meta0, hq⟩ : ∃ a m, s[i]? = some (a, m) :=
      ⟨s[i].1, s[i].2, List.getElem?_eq_getElem hi⟩
    obtain ⟨s'', hrec, hlen'', hent⟩ := ih (ext + 1)
      (s.set i (acct0, { meta0 with output_data_receivers :=
        meta0.output_data_receivers ++ [{ data_id := ext, receiver_id := recv }] }))
      (by
        rw [List.length_set]
        exact fun i' hm => h i' (List.mem_cons_of_mem _ hm))
    refine ⟨s'', ?_, by rw [hlen'', List.length_set], ?_⟩
    · simp only [createLoop, generate_data_id, hq, hrec, List.length_cons,
        List.range'_succ]
      refine congrArg (Prod.mk _) (congrArg (Prod.mk _) (by omega))
    · intro j acct meta hj
      by_cases hij : i = j
      · subst hij
        have hpair : (acct, meta) = (acct0, meta0) := by
          rw [hj] at hq
          exact Option.some.inj hq
        have hacct : acct = acct0 := congrArg Prod.fst hpair
        have hmeta : meta = meta0 := congrArg Prod.snd hpair
        have hset : (s.set i (acct0, { meta0 with output_data_receivers :=
            meta0.output_data_receivers ++ [{ data_id := ext, receiver_id := recv }] }))[i]?
            = some (acct0, { meta0 with output_data_receivers :=
              meta0.output_data_receivers ++ [{ data_id := ext, receiver_id := recv }] }) :=
          List.getElem?_set_self hi
        have hres := hent i acct0 _ hset
        rw [hres, hacct, hmeta]
        simp [mintedReceiversFor, List.append_assoc]
      · have hset : (s.set i (acct0, { meta0 with output_data_receivers :=
            meta0.output_data_receivers ++ [{ data_id := ext, receiver_id := recv }] }))[j]?
            = s[j]? := List.getElem?_set_ne hij
        have hres := hent j acct meta (by rw [hset]; exact hj)
        rw [hres]
        simp [mintedReceiversFor, hij]

theorem createLoop_err (recv : AccountId) (indices : List Nat) :
    ∀ (ext : Nat) (s : Store) (b : Nat),
      firstOutOfRange s.length indices = some b →
      ∃ s' ext', createLoop ext recv indices s = (.error (.invalidReceiptIndex b), s', ext')
        ∧ s'.length = s.length
        ∧ ∀ (j : Nat) (acct : AccountId) (meta : ReceiptMetadata),
            s[j]? = some (acct, meta) →
            ∃ meta' : ReceiptMetadata, s'[j]? = some (acct, meta')
              ∧ meta'.input_data_ids = meta.input_data_ids
              ∧ meta'.actions = meta.actions := by
  induction indices with
  | nil => intro ext s b hb; exact absurd hb (by simp [firstOutOfRange])
  | cons i rest ih =>
    intro ext s b hb
    by_cases hi : s.length ≤ i
    · have hb' : b = i := by
        rw [firstOutOfRange, List.find?_cons_of_pos _ (by simpa using hi)] at hb
        exact (Option.some.inj hb).symm
      have hq : s[i]? = none := List.getElem?_eq_none hi
      refine ⟨s, ext + 1, ?_, rfl, fun j acct meta hj => ⟨meta, hj, rfl, rfl⟩⟩
      rw [hb']
      simp only [createLoop, generate_data_id, hq]
    · push_neg at hi
      have hb' : firstOutOfRange s.length rest = some b := by
        rw [firstOutOfRange, List.find?_cons_of_neg _ (by simpa using hi.not_le)] at hb
        exact hb
      obtain ⟨acct0, meta0, hq⟩ : ∃ a m, s[i]? = some (a, m) :=
        ⟨s[i].1, s[i].2, List.getElem?_eq_getElem hi⟩
      obtain ⟨s', ext', hrec, hlen', hent⟩ := ih (ext + 1)
        (s.set i (acct0, { meta0 with output_data_receivers :=
          meta0.output_data_receivers ++ [{ data_id := ext, receiver_id := recv }] }))
        b (by rwa [List.length_set])
      refine ⟨s', ext', ?_, by rw [hlen', List.length_set], ?_⟩
      · simp only [createLoop, generate_data_id, hq, hrec]
      · intro j acct meta hj
        by_cases hij : i = j
        · subst hij
          have hpair : (acct, meta) = (acct0, meta0) := by
            rw [hj] at hq
            exact Option.some.inj hq
          have hacct : acct = acct0 := congrArg Prod.fst hpair
          have hmeta : meta = meta0 := congrArg Prod.snd hpair
          have hset : (s.set i (acct0, { meta0 with output_data_receivers :=
              meta0.output_data_receivers ++ [{ data_id := ext, receiver_id := recv }] }))[i]?
              = some (acct0, { meta0 with output_data_receivers :=
                meta0.output_data_receivers ++ [{ data_id := ext, receiver_id := recv }] }) :=
            List.getElem?_set_self hi
          obtain ⟨meta', hm', hin', hac'⟩ := hent i acct0 _ hset
          exact ⟨meta', by rw [hm', hacct], by rw [hin', hmeta], by rw [hac', hmeta]⟩
        · have hset : (s.set i (acct0, { meta0 with output_data_receivers :=
              meta0.output_data_receivers ++ [{ data_id := ext, receiver_id := recv }] }))[j]?
              = s[j]? := List.getElem?_set_ne hij
          exact hent j acct meta (by rw [hset]; exact hj)

/-- C2 counterexample: with store `[("a", empty)]` and dependency list
`[0, 1]`, `create_receipt` fails with `InvalidReceiptIndex 1` but has
already appended an output-data receiver to entry 0, so the store's
contents are not left exactly as they were. -/
theorem create_receipt_failure_mutates_prior_dependency :
    create_receipt 0 [0, 1] "recv"
        [("a", { output_data_receivers := [], input_data_ids := [], actions := [] })]
      = (.error (.invalidReceiptIndex 1),
         [("a", { output_data_receivers := [{ data_id := 0, receiver_id := "recv" }],
                  input_data_ids := [], actions := [] })], 2)
    ∧ ([("a", { output_data_receivers := [{ data_id := 0, receiver_id := "recv" }],
                input_data_ids := [], actions := [] })] : Store)
      ≠ [("a", { output_data_receivers := [], input_data_ids := [], actions := [] })] :=
  ⟨rfl, by decide⟩

/-- C2 amended: with a dependency list containing an out-of-range index,
`create_receipt` fails with `InvalidReceiptIndex` carrying the first
out-of-range index (in input order) and leaves the store's length and
every entry's account, `input_data_ids` and `actions` unchanged; however
entries referenced by valid indices occurring before the first invalid
one may have gained `output_data_receivers` entries. -/
theorem create_receipt_invalid_index (ext : Nat) (indices : List Nat)
    (recv : AccountId) (s : Store) (b : Nat)
    (h : firstOutOfRange s.length indices = some b) :
    (create_receipt ext indices recv s).1 = .error (.invalidReceiptIndex b)
    ∧ (create_receipt ext indices recv s).2.1.length = s.length
    ∧ ∀ (j : Nat) (acct : AccountId) (meta : ReceiptMetadata),
        s[j]? = some (acct, meta) →
        ∃ meta' : ReceiptMetadata,
          (create_receipt ext indices recv s).2.1[j]? = some (acct, meta')
          ∧ meta'.input_data_ids = meta.input_data_ids
          ∧ meta'.actions = meta.actions := by
  obtain ⟨s', ext', hcl, hlen, hent⟩ := createLoop_err recv indices ext s b h
  have hcr : create_receipt ext indices recv s
      = (.error (.invalidReceiptIndex b), s', ext') := by
    simp only [create_receipt, hcl]
  rw [hcr]
  exact ⟨rfl, hlen, hent⟩

/-- C2 witness: index 5 is out of range for a one-entry store; the call
errors with `InvalidReceiptIndex 5` and the store keeps length 1. -/
theorem create_receipt_invalid_index_witness :
    firstOutOfRange 1 [0, 5] = some 5
    ∧ (create_receipt 0 [0, 5] "recv"
        [("a", { output_data_receivers := [], input_data_ids := [],
                 actions := [] })]).1 = .error (.invalidReceiptIndex 5)
    ∧ (create_receipt 0 [0, 5] "recv"
        [("a", { output_data_receivers := [], input_data_ids := [],
                 actions := [] })]).2.1.length = 1 := by
  have h := create_receipt_invalid_index 0 [0, 5] "recv"
    [("a", { output_data_receivers := [], input_data_ids := [], actions := [] })]
    5 (by decide)
  exact ⟨by decide, h.1, h.2.1⟩

/-- C6: with all dependency indices in range, `create_receipt` mints one
fresh identifier per dependency in input order (the counter values, all
distinct), appends (identifier, receiver) to each dependency's
`output_data_receivers` in order, gives the new receipt exactly those
identifiers as `input_data_ids`, appends the new (receiver, empty
metadata) entry at the old store length, and returns that index. -/
theorem create_receipt_valid_indices (ext : Nat) (indices : List Nat)
    (recv : AccountId) (s : Store)
    (h : ∀ i ∈ indices, i < s.length) :
    (create_receipt ext indices recv s).1 = .ok s.length
    ∧ (create_receipt ext indices recv s).2.2 = ext + indices.length
    ∧ (create_receipt ext indices recv s).2.1.length = s.length + 1
    ∧ (create_receipt ext indices recv s).2.1[s.length]? = some (recv,
        { output_data_receivers := [],
          input_data_ids := List.range' ext indices.length,
          actions := [] })
    ∧ (List.range' ext indices.length).Nodup
    ∧ ∀ (j : Nat) (acct : AccountId) (meta : ReceiptMetadata),
        s[j]? = some (acct, meta) →
        (create_receipt ext indices recv s).2.1[j]? = some (acct,
          { meta with output_data_receivers :=
              meta.output_data_receivers ++ mintedReceiversFor ext recv indices j }) := by
  obtain ⟨s', hcl, hlen, hent⟩ := createLoop_ok recv indices ext s h
  have hcr : create_receipt ext indices recv s
      = (.ok s'.length,
         s' ++ [(recv, { output_data_receivers := [],
                         input_data_ids := List.range' ext indices.length,
                         actions := [] })],
         ext + indices.length) := by
    simp only [create_receipt, hcl]
  rw [hcr]
  refine ⟨by rw [hlen], rfl, by simp [hlen], ?_,
    List.nodup_range' ext indices.length, ?_⟩
  · rw [← hlen]
    exact List.getElem?_concat_length s' _
  · intro j acct meta hj
    obtain ⟨hjl, _⟩ := List.getElem?_eq_some.mp hj
    have hres := hent j acct meta hj
    rw [List.getElem?_append, if_pos (by rw [hlen]; exact hjl)]
    exact hres

/-- C6 witness: two dependencies on entry 0 of a one-entry store, counter
starting at 7: identifiers 7 and 8 are minted in order, the new receipt
gets `input_data_ids = [7, 8]` and index 1 is returned. -/
theorem create_receipt_valid_indices_witness :
    (∀ i ∈ [0, 0], i < List.length
      ([("a", { output_data_receivers := [], input_data_ids := [],
                actions := [] })] : Store))
    ∧ (create_receipt 7 [0, 0] "recv"
        [("a", { output_data_receivers := [], input_data_ids := [],
                 actions := [] })]).1 = .ok 1
    ∧ (create_receipt 7 [0, 0] "recv"
        [("a", { output_data_receivers := [], input_data_ids := [],
                 actions := [] })]).2.1[1]? = some ("recv",
        { output_data_receivers := [], input_data_ids := [7, 8], actions := [] }) := by
  have h := create_receipt_valid_indices 7 [0, 0] "recv"
    [("a", { output_data_receivers := [], input_data_ids := [], actions := [] })]
    (by decide)
  exact ⟨by decide, h.1, h.2.2.2.1⟩

theorem validateMethodNames_err (l : List (List Nat))
    (h : ∃ n ∈ l, isValidUtf8 n = false) :
    validateMethodNames l = .error .invalidMethodName := by
  induction l with
  | nil =>
    obtain ⟨n, hn, _⟩ := h
    exact absurd hn (List.not_mem_nil n)
  | cons a rest ih =>
    by_cases ha : isValidUtf8 a = true
    · obtain ⟨n, hn, hv⟩ := h
      have hnr : n ∈ rest := by
        rcases List.mem_cons.mp hn with h1 | h1
        · rw [h1] at hv
          rw [ha] at hv
          exact absurd hv (by simp)
        · exact h1
      have hrec := ih ⟨n, hnr, hv⟩
      simp only [validateMethodNames, ha, if_true, hrec]
    · simp only [validateMethodNames]
      rw [if_neg ha]

/-- C8: with an in-range receipt index, appending a function-call action
whose method-name bytes are not valid text fails with `InvalidMethodName`
and returns the store verbatim; likewise for an add-key-with-function-call
action (with a well-formed public key) one of whose method names is not
valid text.  No partially-applied action is left in the store. -/
theorem append_invalid_method_name (s : Store) (receipt_index : Nat)
    (method_name args : List Nat) (attached_deposit prepaid_gas : Nat)
    (public_key : List Nat) (nonce : Nat) (allowance : Option Nat)
    (recv : AccountId) (method_names : List (List Nat)) (k : PublicKey)
    (hin : receipt_index < s.length)
    (h1 : isValidUtf8 method_name = false)
    (hpk : parsePublicKey public_key = some k)
    (h2 : ∃ n ∈ method_names, isValidUtf8 n = false) :
    append_action_function_call s receipt_index method_name args
        attached_deposit prepaid_gas
      = some (.error .invalidMethodName, s)
    ∧ append_action_add_key_with_function_call s receipt_index public_key nonce
        allowance recv method_names
      = some (.error .invalidMethodName, s) := by
  constructor
  · simp [append_action_function_call, h1]
  · simp [append_action_add_key_with_function_call, hpk,
      validateMethodNames_err method_names h2]

/-- C8 witness: the byte `0xFF` is not valid text; both appends fail with
`InvalidMethodName` and return the one-entry store unchanged. -/
theorem append_invalid_method_name_witness :
    append_action_function_call
        [("a", { output_data_receivers := [], input_data_ids := [], actions := [] })]
        0 [255] [] 0 0
      = some (.error .invalidMethodName,
          [("a", { output_data_receivers := [], input_data_ids := [], actions := [] })])
    ∧ append_action_add_key_with_function_call
        [("a", { output_data_receivers := [], input_data_ids := [], actions := [] })]
        0 (0 :: List.replicate 32 0) 1 none "b" [[255]]
      = some (.error .invalidMethodName,
          [("a", { output_data_receivers := [], input_data_ids := [], actions := [] })]) :=
  append_invalid_method_name
    [("a", { output_data_receivers := [], input_data_ids := [], actions := [] })]
    0 [255] [] 0 0 (0 :: List.replicate 32 0) 1 none "b" [[255]]
    (.ed25519 (List.replicate 32 0))
    (by decide) (by decide) (by decide) (by decide)

/-- C4: the weight sum of any registry of `u64` weights fits in `u128`
(double the native width); with a non-zero sum, `floor(gas / weightSum)`
per weight unit makes every per-entry product, every running prefix
total, and the full total of per-entry allocations at most `gas` — so
none of them can overflow the `u64` gas type. -/
theorem gas_weight_arithmetic (gw : List (FunctionCallActionIndex × Nat)) (gas : Nat)
    (hsum : gasWeightSum gw ≠ 0)
    (hw : ∀ e ∈ gw, e.2 < U64) (hlen : gw.length ≤ U64) :
    gasWeightSum gw < U64 * U64
    ∧ (gw.map (fun e => (gas / gasWeightSum gw) * e.2)).sum
        = (gas / gasWeightSum gw) * gasWeightSum gw
    ∧ (gw.map (fun e => (gas / gasWeightSum gw) * e.2)).sum ≤ gas
    ∧ (∀ p : Nat,
        ((gw.take p).map (fun e => (gas / gasWeightSum gw) * e.2)).sum ≤ gas)
    ∧ ∀ e ∈ gw, (gas / gasWeightSum gw) * e.2 ≤ gas := by
  have hmap : (gw.map (fun e => (gas / gasWeightSum gw) * e.2)).sum
      = (gas / gasWeightSum gw) * gasWeightSum gw := by
    simpa [gasWeightSum] using
      List.sum_map_mul_left gw (fun e => e.2) (gas / gasWeightSum gw)
  have htot : (gw.map (fun e => (gas / gasWeightSum gw) * e.2)).sum ≤ gas := by
    rw [hmap]
    exact Nat.div_mul_le_self gas _
  refine ⟨?_, hmap, htot, ?_, ?_⟩
  · have hb : gasWeightSum gw ≤ gw.length * (U64 - 1) := by
      have := List.sum_le_card_nsmul (gw.map (fun e => e.2)) (U64 - 1) ?_
      · simpa [gasWeightSum, smul_eq_mul] using this
      · intro x hx
        obtain ⟨e, he, hex⟩ := List.mem_map.mp hx
        have := hw e he
        omega
    calc gasWeightSum gw ≤ gw.length * (U64 - 1) := hb
      _ ≤ U64 * (U64 - 1) := Nat.mul_le_mul_right _ hlen
      _ < U64 * U64 := by decide
  · intro p
    have hsplit : ((gw.take p).map (fun e => (gas / gasWeightSum gw) * e.2)).sum
        + ((gw.drop p).map (fun e => (gas / gasWeightSum gw) * e.2)).sum
        = (gw.map (fun e => (gas / gasWeightSum gw) * e.2)).sum := by
      rw [← List.sum_append, ← List.map_append, List.take_append_drop]
    omega
  · intro e he
    have h1 : e.2 ≤ gasWeightSum gw := by
      have hmem : e.2 ∈ gw.map (fun e => e.2) := List.mem_map_of_mem _ he
      exact List.single_le_sum (fun x _ => Nat.zero_le x) _ hmem
    calc (gas / gasWeightSum gw) * e.2
        ≤ (gas / gasWeightSum gw) * gasWeightSum gw := Nat.mul_le_mul_left _ h1
      _ ≤ gas := Nat.div_mul_le_self gas _

/-- C4 witness: weights 1 and 2, gas 100: the total of per-entry
allocations, 99, does not exceed 100, and the weight sum 3 is non-zero. -/
theorem gas_weight_arithmetic_witness :
    gasWeightSum [({ receipt_index := 0, action_index := 0 }, 1),
                  ({ receipt_index := 0, action_index := 1 }, 2)] ≠ 0
    ∧ ((([({ receipt_index := 0, action_index := 0 }, 1),
          ({ receipt_index := 0, action_index := 1 }, 2)]
          : List (FunctionCallActionIndex × Nat))).map
        (fun e => (100 / gasWeightSum
          ([({ receipt_index := 0, action_index := 0 }, 1),
            ({ receipt_index := 0, action_index := 1 }, 2)]
            : List (FunctionCallActionIndex × Nat))) * e.2)).sum ≤ 100 :=
  ⟨by decide,
   (gas_weight_arithmetic
     [({ receipt_index := 0, action_index := 0 }, 1),
      ({ receipt_index := 0, action_index := 1 }, 2)] 100
     (by decide) (by decide) (by decide)).2.2.1⟩

theorem actionAt_some (s : Store) (fci : FunctionCallActionIndex) (a : Action)
    (h : actionAt s fci = some a) :
    ∃ acct meta, s[fci.receipt_index]? = some (acct, meta)
      ∧ meta.actions[fci.action_index]? = some a := by
  unfold actionAt at h
  cases hq : s[fci.receipt_index]? with
  | none => rw [hq] at h; exact Option.noConfusion h
  | some p =>
    obtain ⟨acct, meta⟩ := p
    rw [hq] at h
    exact ⟨acct, meta, rfl, h⟩

theorem distribute_gas_total (s : Store) (fci : FunctionCallActionIndex) (n : Nat)
    (h : resolvesToFunctionCall s fci = true) :
    ∃ s', distribute_gas s fci n = some s' := by
  obtain ⟨mn, args, g, d, ha⟩ := (resolves_iff s fci).mp h
  obtain ⟨acct, meta, h1, h2⟩ := actionAt_some s fci _ ha
  refine ⟨List.set s fci.receipt_index (acct, { meta with
    actions := meta.actions.set fci.action_index
      (.functionCall mn args ((g + n) % U64) d) }), ?_⟩
  simp only [distribute_gas, h1, h2]

theorem distribute_gas_preserves_resolves (s : Store) (fci : FunctionCallActionIndex)
    (n : Nat) {s' : Store} (h : distribute_gas s fci n = some s')
    (fci' : FunctionCallActionIndex) :
    resolvesToFunctionCall s' fci' = resolvesToFunctionCall s fci' := by
  obtain ⟨⟨mn, args, g, d, ha, ha'⟩, hother⟩ := distribute_gas_spec s fci n h
  by_cases he : fci' = fci
  · rw [he]
    have t1 : resolvesToFunctionCall s' fci = true :=
      (resolves_iff _ _).mpr ⟨_, _, _, _, ha'⟩
    have t2 : resolvesToFunctionCall s fci = true :=
      (resolves_iff _ _).mpr ⟨_, _, _, _, ha⟩
    rw [t1, t2]
  · unfold resolvesToFunctionCall
    rw [hother fci' he]

theorem distributeLoop_spec (per : Nat) (gw : List (FunctionCallActionIndex × Nat)) :
    ∀ s : Store, (∀ e ∈ gw, resolvesToFunctionCall s e.1 = true) →
    (gw.map Prod.fst).Nodup →
    ∃ s1, distributeLoop s gw per = some (s1, per * gasWeightSum gw)
      ∧ (∀ fci, fci ∉ gw.map Prod.fst → actionAt s1 fci = actionAt s fci)
      ∧ ∀ e ∈ gw, ∀ (mn args : List Nat) (g d : Nat),
          actionAt s e.1 = some (.functionCall mn args g d) →
          actionAt s1 e.1 = some (.functionCall mn args ((g + per * e.2) % U64) d) := by
  induction gw with
  | nil =>
    intro s _ _
    exact ⟨s, by simp [distributeLoop, gasWeightSum], fun _ _ => rfl,
      fun e he => absurd he (List.not_mem_nil e)⟩
  | cons e0 rest ih =>
    obtain ⟨fci0, w0⟩ := e0
    intro s hres hnd
    have h0 : resolvesToFunctionCall s fci0 = true :=
      hres (fci0, w0) (List.mem_cons_self _ _)
    obtain ⟨s', hdg⟩ := distribute_gas_total s fci0 (per * w0) h0
    obtain ⟨⟨mnx, argsx, gx, dx, hax, hax'⟩, hother⟩ :=
      distribute_gas_spec s fci0 (per * w0) hdg
    have hnd' : (rest.map Prod.fst).Nodup := (List.nodup_cons.mp (by simpa using hnd)).2
    have hfn : fci0 ∉ rest.map Prod.fst := (List.nodup_cons.mp (by simpa using hnd)).1
    have hres' : ∀ e ∈ rest, resolvesToFunctionCall s' e.1 = true := by
      intro e he
      rw [distribute_gas_preserves_resolves s fci0 (per * w0) hdg e.1]
      exact hres e (List.mem_cons_of_mem _ he)
    obtain ⟨s1, hloop, huntouched, hbump⟩ := ih s' hres' hnd'
    refine ⟨s1, ?_, ?_, ?_⟩
    · simp only [distributeLoop, hdg, hloop, gasWeightSum_cons]
      rw [Nat.mul_add]
    · intro fci hf
      have hf0 : fci ≠ fci0 := by
        intro heq
        exact hf (by rw [heq]; simp)
      have hfr : fci ∉ rest.map Prod.fst := by
        intro hm
        exact hf (by simp [hm])
      rw [huntouched fci hfr, hother fci hf0]
    · intro e he mn args g d ha
      rcases List.mem_cons.mp he with h1 | h1
      · rw [h1] at ha ⊢
        have hinj : mnx = mn ∧ argsx = args ∧ gx = g ∧ dx = d := by
          simpa using hax.symm.trans ha
        obtain ⟨e1, e2, e3, e4⟩ := hinj
        rw [huntouched _ hfn, hax', e1, e2, e3, e4]
      · have hne : e.1 ≠ fci0 := by
          intro heq
          exact hfn (heq ▸ List.mem_map_of_mem Prod.fst h1)
        refine hbump e h1 mn args g d ?_
        rw [hother e.1 hne]
        exact ha

/-- C3: with a non-zero weight sum and every registry entry resolving to
a function-call action at pairwise-distinct positions,
`distribute_unused_gas` adds `perWeightUnit * weight` (per-weight-unit
computed by floor division) to each recorded entry in recording order,
adds the remainder `gas - distributed` entirely to the last recorded
entry, so the total added is exactly `gas`; it clears the registry and
returns `All`.  Untouched positions keep their actions. -/
theorem distribute_unused_gas_nonzero (s : Store)
    (gw : List (FunctionCallActionIndex × Nat)) (gas : Nat)
    (hsum : gasWeightSum gw ≠ 0)
    (hres : ∀ e ∈ gw, resolvesToFunctionCall s e.1 = true)
    (hnd : (gw.map Prod.fst).Nodup) :
    ∃ s2, distribute_unused_gas { action_receipts := s, gas_weights := gw } gas
        = some ({ action_receipts := s2, gas_weights := [] }, .All)
      ∧ ((gas / gasWeightSum gw) * gasWeightSum gw)
          + (gas - (gas / gasWeightSum gw) * gasWeightSum gw) = gas
      ∧ (∀ fci, fci ∉ gw.map Prod.fst → actionAt s2 fci = actionAt s fci)
      ∧ ∀ lastE, gw.getLast? = some lastE →
          (∀ e ∈ gw, e.1 ≠ lastE.1 → ∀ (mn args : List Nat) (g d : Nat),
            actionAt s e.1 = some (.functionCall mn args g d) →
            actionAt s2 e.1 = some (.functionCall mn args
              ((g + (gas / gasWeightSum gw) * e.2) % U64) d))
          ∧ ∀ (mn args : List Nat) (g d : Nat),
            actionAt s lastE.1 = some (.functionCall mn args g d) →
            actionAt s2 lastE.1 = some (.functionCall mn args
              ((g + ((gas / gasWeightSum gw) * lastE.2
                + (gas - (gas / gasWeightSum gw) * gasWeightSum gw))) % U64) d) := by
  have hgw : gw ≠ [] := by
    intro h
    rw [h] at hsum
    exact hsum rfl
  obtain ⟨lfci, lw, hlast⟩ : ∃ a b, gw.getLast? = some (a, b) := by
    cases hg : gw.getLast? with
    | none => exact absurd (List.getLast?_eq_none_iff.mp hg) hgw
    | some l =>
      obtain ⟨a, b⟩ := l
      exact ⟨a, b, rfl⟩
  have hlmem : (lfci, lw) ∈ gw :=
    List.mem_of_mem_getLast? (by rw [hlast]; rfl)
  obtain ⟨s1, hloop, hunt, hbump⟩ :=
    distributeLoop_spec (gas / gasWeightSum gw) gw s hres hnd
  obtain ⟨mnL, argsL, gL, dL, haL⟩ :=
    (resolves_iff s lfci).mp (hres (lfci, lw) hlmem)
  have haL1 : actionAt s1 lfci = some (.functionCall mnL argsL
      ((gL + (gas / gasWeightSum gw) * lw) % U64) dL) :=
    hbump (lfci, lw) hlmem mnL argsL gL dL haL
  have hres1 : resolvesToFunctionCall s1 lfci = true :=
    (resolves_iff _ _).mpr ⟨_, _, _, _, haL1⟩
  obtain ⟨s2, hdg2⟩ := distribute_gas_total s1 lfci
    (gas - (gas / gasWeightSum gw) * gasWeightSum gw) hres1
  obtain ⟨⟨mn2, args2, g2, d2, ha2, ha2'⟩, hother2⟩ :=
    distribute_gas_spec s1 lfci _ hdg2
  have hlf : lfci ∈ gw.map Prod.fst := List.mem_map_of_mem Prod.fst hlmem
  refine ⟨s2, ?_, Nat.add_sub_cancel' (Nat.div_mul_le_self gas _), ?_, ?_⟩
  · simp only [distribute_unused_gas, ne_eq, hsum, not_false_eq_true, if_true,
      hloop, hlast, hdg2]
  · intro fci hf
    have hne : fci ≠ lfci := by
      intro heq
      exact hf (heq ▸ hlf)
    rw [hother2 fci hne, hunt fci hf]
  · intro lastE hE
    have hEeq : lastE = (lfci, lw) := Option.some.inj (hE.symm.trans hlast)
    rw [hEeq]
    constructor
    · intro e he hne mn args g d ha
      rw [hother2 e.1 hne]
      exact hbump e he mn args g d ha
    · intro mn args g d ha
      have hb := hbump (lfci, lw) hlmem mn args g d ha
      have hinj : mn2 = mn ∧ args2 = args
          ∧ g2 = (g + (gas / gasWeightSum gw) * lw) % U64 ∧ d2 = d := by
        simpa using ha2.symm.trans hb
      obtain ⟨e1, e2, e3, e4⟩ := hinj
      rw [ha2', e1, e2, e3, e4, Nat.mod_add_mod, Nat.add_assoc]

/-- C3 witness: two weighted function-call actions (weights 1 and 2,
initial gas 5 and 7), gas 100: distribution succeeds with outcome `All`
and an emptied registry. -/
theorem distribute_unused_gas_nonzero_witness :
    gasWeightSum [({ receipt_index := 0, action_index := 0 }, 1),
                  ({ receipt_index := 0, action_index := 1 }, 2)] ≠ 0
    ∧ ∃ s2, distribute_unused_gas
        { action_receipts :=
            [("a", { output_data_receivers := [], input_data_ids := [],
                     actions := [.functionCall [] [] 5 0, .functionCall [] [] 7 0] })],
          gas_weights := [({ receipt_index := 0, action_index := 0 }, 1),
                          ({ receipt_index := 0, action_index := 1 }, 2)] } 100
      = some ({ action_receipts := s2, gas_weights := [] }, .All) := by
  refine ⟨by decide, ?_⟩
  obtain ⟨s2, h1, _⟩ := distribute_unused_gas_nonzero
    [("a", { output_data_receivers := [], input_data_ids := [],
             actions := [.functionCall [] [] 5 0, .functionCall [] [] 7 0] })]
    [({ receipt_index := 0, action_index := 0 }, 1),
     ({ receipt_index := 0, action_index := 1 }, 2)] 100
    (by decide) (by decide) (by decide)
  exact ⟨s2, h1⟩

end ReceiptModel
